import Mathlib

/-!
Shallow embedding of the Cloudflare Worker edge proxy (`src/index.ts`) and a
verification of the specification's claims about it.

The listing contains two revision variants of the worker separated by a
document marker; the top-level definitions below embed the first revision
(lines 1-380).  The second revision's four core functions are re-translated
in the `Rev2` namespace for the extensional-equivalence claim.

Platform capabilities (the WHATWG URL parser, `fetch`, `caches.default`,
`JSON.stringify`, `Date.now`) are external collaborators of the core: they
are modelled as explicit parameters/state, never as repository code.
JavaScript numbers are modelled as exact rationals (plus signed infinities
and NaN); IEEE-754 rounding of decimal literals is not modelled.  String
primitives (`toLowerCase`, `split`, `startsWith`, `includes`, `slice`) are
defined structurally over `List Char` so that every definition evaluates
inside the kernel.
-/

set_option autoImplicit false

namespace EdgeProxy

/-- ASCII lower-casing of one character, as `String.prototype.toLowerCase`
acts on the ASCII range (hostnames are ASCII after URL normalisation). -/
def lowerChar (c : Char) : Char :=
  if 'A' ≤ c ∧ c ≤ 'Z' then Char.ofNat (c.toNat + 32) else c

/-- `s.toLowerCase()` on the character list of a string. -/
def jsToLower (cs : List Char) : List Char := cs.map lowerChar

/-- `s.startsWith(pre)`. -/
def jsStartsWith (cs pre : List Char) : Bool := pre.isPrefixOf cs

/-- `s.split(".")` — split on every dot, keeping empty segments, as the
JavaScript string `split` with a one-character separator does. -/
def splitDot : List Char → List (List Char)
  | [] => [[]]
  | '.' :: rest => [] :: splitDot rest
  | c :: rest =>
    match splitDot rest with
    | [] => [[c]]
    | seg :: segs => (c :: seg) :: segs

/-- A JavaScript number that is not NaN: a finite (exact rational) value or
a signed infinity.  `Number(string)` evaluates to `Option JsNum`, with
`none` standing for NaN. -/
inductive JsNum where
  | fin (q : ℚ)
  | posInf
  | negInf
deriving DecidableEq, Repr

/-- `x >= 16` on JavaScript numbers (NaN handled by the caller). -/
def JsNum.ge16 : JsNum → Bool
  | .fin q => 16 ≤ q
  | .posInf => true
  | .negInf => false

/-- `x <= 31` on JavaScript numbers (NaN handled by the caller). -/
def JsNum.le31 : JsNum → Bool
  | .fin q => q ≤ 31
  | .posInf => false
  | .negInf => true

/-- The whitespace characters trimmed by the ECMAScript `StringToNumber`
conversion (ASCII whitespace, NBSP, BOM, line/paragraph separators). -/
def isJsWhitespace (c : Char) : Bool :=
  c = ' ' || c = '\t' || c = '\n' || c.toNat = 13 || c.toNat = 11 || c.toNat = 12 ||
  c.toNat = 0xA0 || c.toNat = 0xFEFF || c.toNat = 0x2028 || c.toNat = 0x2029

/-- Strip leading and trailing JS whitespace. -/
def jsTrim (cs : List Char) : List Char :=
  ((cs.dropWhile isJsWhitespace).reverse.dropWhile isJsWhitespace).reverse

/-- Numeric value of a hexadecimal digit character. -/
def hexVal (c : Char) : ℕ :=
  if '0' ≤ c ∧ c ≤ '9' then c.toNat - '0'.toNat
  else if 'a' ≤ c ∧ c ≤ 'f' then c.toNat - 'a'.toNat + 10
  else if 'A' ≤ c ∧ c ≤ 'F' then c.toNat - 'A'.toNat + 10
  else 0

def isHexDigit (c : Char) : Bool :=
  ('0' ≤ c && c ≤ '9') || ('a' ≤ c && c ≤ 'f') || ('A' ≤ c && c ≤ 'F')

def isOctDigit (c : Char) : Bool := '0' ≤ c && c ≤ '7'

def isBinDigit (c : Char) : Bool := c = '0' || c = '1'

/-- Value of a digit string in the given base. -/
def digitsVal (base : ℕ) (ds : List Char) : ℕ :=
  ds.foldl (fun a c => a * base + hexVal c) 0

/-- `10 ^ k` as a rational, for an integer exponent `k`. -/
def qpow10 (k : ℤ) : ℚ :=
  if 0 ≤ k then (10 : ℚ) ^ k.toNat else 1 / (10 : ℚ) ^ (-k).toNat

/-- Parse the exponent part after `e`/`E`: optional sign then digits. -/
def parseExp (cs : List Char) : Option ℤ :=
  match cs with
  | '+' :: ds => if ds ≠ [] ∧ ds.all Char.isDigit then some (digitsVal 10 ds) else none
  | '-' :: ds => if ds ≠ [] ∧ ds.all Char.isDigit then some (-(digitsVal 10 ds : ℤ)) else none
  | ds => if ds ≠ [] ∧ ds.all Char.isDigit then some (digitsVal 10 ds) else none

/-- Parse an unsigned ECMAScript decimal literal (`DecimalDigits`,
`DecimalDigits . DecimalDigits?`, `. DecimalDigits`, each with an optional
exponent part); the whole input must be consumed. -/
def parseDecimal (cs : List Char) : Option ℚ :=
  let intPart := cs.takeWhile Char.isDigit
  let rest := cs.dropWhile Char.isDigit
  match rest with
  | [] => if intPart = [] then none else some (digitsVal 10 intPart : ℚ)
  | '.' :: rest2 =>
    let fracPart := rest2.takeWhile Char.isDigit
    let rest3 := rest2.dropWhile Char.isDigit
    if intPart = [] ∧ fracPart = [] then none
    else
      let mantissa : ℚ :=
        (digitsVal 10 intPart : ℚ) + (digitsVal 10 fracPart : ℚ) / (10 : ℚ) ^ fracPart.length
      match rest3 with
      | [] => some mantissa
      | e :: rest4 =>
        if e = 'e' ∨ e = 'E' then (parseExp rest4).map (fun k => mantissa * qpow10 k)
        else none
  | e :: rest2 =>
    if e = 'e' ∨ e = 'E' then
      if intPart = [] then none
      else (parseExp rest2).map (fun k => (digitsVal 10 intPart : ℚ) * qpow10 k)
    else none

/-- Parse an unsigned numeric literal: `Infinity` or a decimal literal. -/
def unsignedDec (cs : List Char) : Option JsNum :=
  if cs = "Infinity".toList then some .posInf
  else (parseDecimal cs).map .fin

/-- Negate a JS number. -/
def JsNum.neg : JsNum → JsNum
  | .fin q => .fin (-q)
  | .posInf => .negInf
  | .negInf => .posInf

/-- Parse an optionally signed numeric literal. -/
def signedDec (cs : List Char) : Option JsNum :=
  match cs with
  | '+' :: rest => unsignedDec rest
  | '-' :: rest => (unsignedDec rest).map JsNum.neg
  | _ => unsignedDec cs

/-- A non-decimal integer literal `0x…`/`0o…`/`0b…`: digits in the base,
at least one, whole input consumed. -/
def radixLit (base : ℕ) (good : Char → Bool) (ds : List Char) : Option JsNum :=
  if ds ≠ [] ∧ ds.all good then some (.fin (digitsVal base ds : ℚ)) else none

/-- The ECMAScript `Number(string)` conversion (`StringToNumber`):
trim whitespace, empty means `0`, then a hex/octal/binary literal or an
optionally signed decimal / `Infinity` literal; anything else is NaN
(`none`).  Exact rational arithmetic stands in for IEEE-754 doubles. -/
def jsNumber (cs : List Char) : Option JsNum :=
  match jsTrim cs with
  | [] => some (.fin 0)
  | '0' :: c :: rest =>
    if c = 'x' ∨ c = 'X' then radixLit 16 isHexDigit rest
    else if c = 'o' ∨ c = 'O' then radixLit 8 isOctDigit rest
    else if c = 'b' ∨ c = 'B' then radixLit 2 isBinDigit rest
    else signedDec ('0' :: c :: rest)
  | cs' => signedDec cs'

/-- `host.split(".")[1]` : the second dotted segment when it exists
(`none` models JavaScript `undefined`, whose `Number` conversion is NaN). -/
def secondSegment (host : List Char) : Option (List Char) :=
  match splitDot host with
  | _ :: s :: _ => some s
  | _ => none

/-- Embedding of `isBlockedHost` (src/index.ts lines 134-151): lower-case
the hostname; block `localhost`, `127.0.0.1`, `::1`; block the `10.` and
`192.168.` prefixes; for a `172.` prefix, block when `Number(parts[1])` is
not NaN and lies between 16 and 31 inclusive. -/
def isBlockedHost (hostname : String) : Bool :=
  let host := jsToLower hostname.toList
  if host = "localhost".toList || host = "127.0.0.1".toList || host = "::1".toList then true
  else if jsStartsWith host "10.".toList then true
  else if jsStartsWith host "192.168.".toList then true
  else if jsStartsWith host "172.".toList then
    let second := match secondSegment host with
      | some s => jsNumber s
      | none => none
    match second with
    | some n => n.ge16 && n.le31
    | none => false
  else false

example : isBlockedHost "localhost" = true := by decide
example : isBlockedHost "LOCALHOST" = true := by decide
example : isBlockedHost "10.0.0.5" = true := by decide
example : isBlockedHost "192.168.1.1" = true := by decide
example : isBlockedHost "172.16.0.1" = true := by decide
example : isBlockedHost "172.31.255.255" = true := by decide
example : isBlockedHost "172.15.0.1" = false := by decide
example : isBlockedHost "172.32.0.1" = false := by decide
example : isBlockedHost "172.abc.1.1" = false := by decide
example : isBlockedHost "example.com" = false := by decide
example : isBlockedHost "172.0x1F.9.9" = true := by decide
example : isBlockedHost "172." = false := by decide

/-- The blocking policy as the specification words it: the lower-cased
hostname equals `localhost`, `127.0.0.1` or `::1`, or starts with `10.` or
`192.168.`, or starts with `172.` and its second dotted segment parses as a
number between 16 and 31 inclusive. -/
def blockedSpec (hostname : String) : Prop :=
  let l := jsToLower hostname.toList
  l = "localhost".toList ∨ l = "127.0.0.1".toList ∨ l = "::1".toList ∨
  jsStartsWith l "10.".toList = true ∨ jsStartsWith l "192.168.".toList = true ∨
  (jsStartsWith l "172.".toList = true ∧
    ∃ s q, secondSegment l = some s ∧ jsNumber s = some (.fin q) ∧ 16 ≤ q ∧ q ≤ 31)

lemma secondNum_iff (l : List Char) :
    (match (match secondSegment l with | some s => jsNumber s | none => none) with
     | some n => n.ge16 && n.le31
     | none => false) = true ↔
    ∃ s q, secondSegment l = some s ∧ jsNumber s = some (.fin q) ∧ 16 ≤ q ∧ q ≤ 31 := by
  cases hs : secondSegment l with
  | none => simp
  | some s =>
    cases hn : jsNumber s with
    | none => simp [hn]
    | some n =>
      cases n with
      | fin q => simp [hn, JsNum.ge16, JsNum.le31]
      | posInf => simp [hn, JsNum.ge16, JsNum.le31]
      | negInf => simp [hn, JsNum.ge16, JsNum.le31]

/-- C1: `isBlockedHost` returns blocked exactly when the lower-cased
hostname equals `localhost`, `127.0.0.1` or `::1`, starts with `10.` or
`192.168.`, or starts with `172.` with a second dotted segment parsing to a
number in `[16, 31]`; in particular `172.15.…` and `172.32.…` hostnames are
allowed, and `172.abc.1.1` (second segment not a number) is not blocked. -/
theorem isBlockedHost_spec :
    (∀ h : String, isBlockedHost h = true ↔ blockedSpec h) ∧
    isBlockedHost "172.15.0.1" = false ∧
    isBlockedHost "172.32.0.1" = false ∧
    isBlockedHost "172.abc.1.1" = false := by
  refine ⟨fun h => ?_, by decide, by decide, by decide⟩
  simp only [isBlockedHost, blockedSpec]
  split_ifs with h1 h2 h3 h4
  · simp only [Bool.or_eq_true, decide_eq_true_eq] at h1
    simp only [true_iff]
    tauto
  · simp only [true_iff]
    tauto
  · simp only [true_iff]
    tauto
  · rw [secondNum_iff]
    simp only [Bool.or_eq_true, decide_eq_true_eq] at h1
    push_neg at h1
    constructor
    · intro hx
      exact Or.inr (Or.inr (Or.inr (Or.inr (Or.inr ⟨h4, hx⟩))))
    · rintro (h | h | h | h | h | ⟨-, h⟩)
      · exact absurd h h1.1.1
      · exact absurd h h1.1.2
      · exact absurd h h1.2
      · exact absurd h h2
      · exact absurd h h3
      · exact h
  · simp only [Bool.or_eq_true, decide_eq_true_eq] at h1
    push_neg at h1
    simp only [false_iff]
    rintro (h | h | h | h | h | ⟨h, -⟩)
    · exact h1.1.1 h
    · exact h1.1.2 h
    · exact h1.2 h
    · exact h2 h
    · exact h3 h
    · exact h4 h

/-! ### Target Validator -/

/-- The observable fields of a parsed WHATWG `URL` object: its scheme
(`protocol`, with trailing colon), its `hostname`, and its serialisation
`href` (what `toString()` returns).  The URL parser itself is a platform
capability, passed in as a `String → Option JSURL` function. -/
structure JSURL where
  protocol : String
  hostname : String
  href : String
deriving DecidableEq, Repr

/-- Embedding of `getValidatedHttpsUrl` (src/index.ts lines 119-132):
read the `url` query parameter (`none` when absent); JavaScript `!target`
also rejects the empty string; `new URL(target)` throwing is the parser
returning `none`; reject any protocol other than `https:`. -/
def getValidatedHttpsUrl (parse : String → Option JSURL) (query : Option String) :
    Option JSURL :=
  match query with
  | none => none
  | some target =>
    if target = "" then none
    else
      match parse target with
      | none => none
      | some targetUrl =>
        if targetUrl.protocol ≠ "https:" then none else some targetUrl

/-- C4: the Target Validator returns invalid (`none`, never an exception)
exactly when the `url` parameter is absent, empty, unparseable, or of a
non-`https:` scheme; otherwise it returns the parsed URL.  Plain `http:`
targets are rejected.  (The embedding is a total Lean function, which is
the purity/no-side-effect part of the claim.) -/
theorem getValidatedHttpsUrl_spec (parse : String → Option JSURL) (query : Option String) :
    (getValidatedHttpsUrl parse query = none ↔
      (query = none ∨ query = some "" ∨
       (∃ s, query = some s ∧ parse s = none) ∨
       (∃ s u, query = some s ∧ parse s = some u ∧ u.protocol ≠ "https:"))) ∧
    (∀ s u, query = some s → s ≠ "" → parse s = some u → u.protocol = "https:" →
      getValidatedHttpsUrl parse query = some u) ∧
    (∀ s u, query = some s → parse s = some u → u.protocol = "http:" →
      getValidatedHttpsUrl parse query = none) := by
  refine ⟨?_, ?_, ?_⟩
  · cases query with
    | none => simp [getValidatedHttpsUrl]
    | some s =>
      by_cases hs : s = ""
      · subst hs; simp [getValidatedHttpsUrl]
      · cases hp : parse s with
        | none => simp [getValidatedHttpsUrl, hs, hp]
        | some u =>
          by_cases hu : u.protocol = "https:"
          · simp [getValidatedHttpsUrl, hs, hp, hu]
          · simp [getValidatedHttpsUrl, hs, hp, hu]
  · intro s u hq hs hp hu
    subst hq
    simp [getValidatedHttpsUrl, hs, hp, hu]
  · intro s u hq hp hu
    subst hq
    by_cases hs : s = ""
    · subst hs; simp [getValidatedHttpsUrl]
    · simp [getValidatedHttpsUrl, hs, hp, hu]

/-- Witness for C4 at concrete inputs: a parser that returns an `https:`
URL for the example target. -/
theorem getValidatedHttpsUrl_spec_witness :
    getValidatedHttpsUrl (fun _ => some ⟨"https:", "example.com", "https://example.com/"⟩)
      (some "https://example.com") = some ⟨"https:", "example.com", "https://example.com/"⟩ :=
  (getValidatedHttpsUrl_spec (fun _ => some ⟨"https:", "example.com", "https://example.com/"⟩)
    (some "https://example.com")).2.1 "https://example.com" _ rfl (by decide) rfl rfl

/-! ### Rate Limiter -/

/-- A value of the `RATE_LIMIT_STORE` map:
`{ windowStartMs: number; count: number }`. -/
structure RateEntry where
  windowStartMs : ℤ
  count : ℤ
deriving DecidableEq, Repr

/-- The in-memory `Map<string, RateEntry>`, as an association list with at
most one binding per key (insertion order, like a JS `Map`). -/
abbrev RateStore := List (String × RateEntry)

/-- `RATE_LIMIT_STORE.get(key)`. -/
def storeGet (st : RateStore) (k : String) : Option RateEntry :=
  match st.find? (fun p => p.1 = k) with
  | some p => some p.2
  | none => none

/-- `RATE_LIMIT_STORE.set(key, e)`: overwrite the binding in place when the
key is present, append it otherwise (JS `Map.set`). -/
def storeSet (st : RateStore) (k : String) (e : RateEntry) : RateStore :=
  if st.any (fun p => p.1 = k) then
    st.map (fun p => if p.1 = k then (k, e) else p)
  else st ++ [(k, e)]

/-- `Math.ceil(a / 1000)` for an integer number of milliseconds `a`
(`Int.ediv` rounds towards `-∞` for a positive divisor, so negated
division is exact ceiling division). -/
def jsCeilMs (a : ℤ) : ℤ := -((-a) / 1000)

lemma jsCeilMs_eq_ceil (a : ℤ) : jsCeilMs a = ⌈(a : ℚ) / 1000⌉ := by
  rw [jsCeilMs, show ((a : ℚ) / 1000) = -(((-a : ℤ) : ℚ) / ((1000 : ℕ) : ℚ)) by push_cast; ring,
    Int.ceil_neg, Rat.floor_intCast_div_natCast]
  norm_num

/-- The result record of `checkRateLimit`. -/
structure RateResult where
  allowed : Bool
  retryAfterSeconds : ℤ
deriving DecidableEq, Repr

/-- Embedding of the body of `checkRateLimit` (src/index.ts lines 222-245)
after the client key has been derived (`const key = clientKey(request)` is
factored out; see `checkRateLimit` below).  `now` is the `Date.now()`
reading for this call; the mutable `RATE_LIMIT_STORE` is threaded as
explicit state. -/
def checkRateLimitKey (now : ℤ) (key : String) (maxRequests windowSeconds : ℤ)
    (st : RateStore) : RateResult × RateStore :=
  let windowMs := windowSeconds * 1000
  match storeGet st key with
  | none => (⟨true, 0⟩, storeSet st key ⟨now, 1⟩)
  | some entry =>
    if now - entry.windowStartMs ≥ windowMs then
      (⟨true, 0⟩, storeSet st key ⟨now, 1⟩)
    else if entry.count ≥ maxRequests then
      (⟨false, jsCeilMs (windowMs - (now - entry.windowStartMs))⟩, st)
    else
      (⟨true, 0⟩, storeSet st key ⟨entry.windowStartMs, entry.count + 1⟩)

lemma storeSet_cons_ne (p : String × RateEntry) (st : RateStore) (k : String) (e : RateEntry)
    (h : p.1 ≠ k) : storeSet (p :: st) k e = p :: storeSet st k e := by
  by_cases ha : st.any (fun q => q.1 = k)
  · simp [storeSet, ha, h]
  · simp [storeSet, ha, h]

lemma storeGet_cons_ne (p : String × RateEntry) (st : RateStore) (k : String)
    (h : p.1 ≠ k) : storeGet (p :: st) k = storeGet st k := by
  simp [storeGet, List.find?, h]

lemma storeGet_storeSet_self (st : RateStore) (k : String) (e : RateEntry) :
    storeGet (storeSet st k e) k = some e := by
  induction st with
  | nil => simp [storeSet, storeGet, List.find?]
  | cons p rest ih =>
    by_cases hp : p.1 = k
    · have ha : (p :: rest).any (fun q => q.1 = k) = true := by
        simp [List.any_cons, hp]
      simp only [storeSet, ha, if_true, List.map_cons, hp, if_pos]
      simp [storeGet, List.find?]
    · rw [storeSet_cons_ne p rest k e hp, storeGet_cons_ne p _ k hp]
      exact ih

lemma storeGet_map_replace (st : RateStore) (k k' : String) (e : RateEntry) (h : k' ≠ k) :
    storeGet (st.map (fun p => if p.1 = k then (k, e) else p)) k' = storeGet st k' := by
  induction st with
  | nil => rfl
  | cons p rest ih =>
    by_cases hp : p.1 = k
    · rw [List.map_cons, if_pos hp, storeGet_cons_ne (k, e) _ k' (fun hh => h hh.symm),
        storeGet_cons_ne p rest k' (by rw [hp]; exact fun hh => h hh.symm)]
      exact ih
    · rw [List.map_cons, if_neg hp]
      by_cases hpk : p.1 = k'
      · simp [storeGet, List.find?, hpk]
      · rw [storeGet_cons_ne _ _ k' hpk, storeGet_cons_ne p rest k' hpk]
        exact ih

lemma storeGet_append_single_ne (st : RateStore) (k k' : String) (e : RateEntry) (h : k' ≠ k) :
    storeGet (st ++ [(k, e)]) k' = storeGet st k' := by
  induction st with
  | nil => simp [storeGet, List.find?, Ne.symm h]
  | cons p rest ih =>
    by_cases hpk : p.1 = k'
    · simp [storeGet, List.find?, hpk]
    · rw [List.cons_append, storeGet_cons_ne p _ k' hpk, storeGet_cons_ne p rest k' hpk]
      exact ih

lemma storeGet_storeSet_ne (st : RateStore) (k k' : String) (e : RateEntry) (h : k' ≠ k) :
    storeGet (storeSet st k e) k' = storeGet st k' := by
  by_cases ha : st.any (fun q => q.1 = k)
  · rw [storeSet, if_pos ha]
    exact storeGet_map_replace st k k' e h
  · rw [storeSet, if_neg ha]
    exact storeGet_append_single_ne st k k' e h

/-- Membership in a store after `storeSet`: the new binding or an old one. -/
lemma mem_storeSet (st : RateStore) (k : String) (e : RateEntry) (p : String × RateEntry)
    (hp : p ∈ storeSet st k e) : p = (k, e) ∨ p ∈ st := by
  by_cases ha : st.any (fun q => q.1 = k)
  · rw [storeSet, if_pos ha] at hp
    rcases List.mem_map.mp hp with ⟨q, hq, hqe⟩
    by_cases hqk : q.1 = k
    · rw [if_pos hqk] at hqe
      exact Or.inl hqe.symm
    · rw [if_neg hqk] at hqe
      exact Or.inr (hqe ▸ hq)
  · rw [storeSet, if_neg ha] at hp
    rcases List.mem_append.mp hp with h | h
    · exact Or.inr h
    · exact Or.inl (List.mem_singleton.mp h)

lemma checkRateLimitKey_reset (now : ℤ) (key : String) (mx ws : ℤ) (st : RateStore)
    (h : storeGet st key = none ∨
      ∃ e, storeGet st key = some e ∧ now - e.windowStartMs ≥ ws * 1000) :
    checkRateLimitKey now key mx ws st = (⟨true, 0⟩, storeSet st key ⟨now, 1⟩) := by
  rcases h with h | ⟨e, he, hw⟩
  · simp [checkRateLimitKey, h]
  · simp [checkRateLimitKey, he, hw]

lemma checkRateLimitKey_increment (now : ℤ) (key : String) (mx ws w c : ℤ) (st : RateStore)
    (h : storeGet st key = some ⟨w, c⟩) (hwin : now - w < ws * 1000) (hc : c < mx) :
    checkRateLimitKey now key mx ws st = (⟨true, 0⟩, storeSet st key ⟨w, c + 1⟩) := by
  simp [checkRateLimitKey, h, not_le.mpr hwin, not_le.mpr hc]

lemma checkRateLimitKey_reject (now : ℤ) (key : String) (mx ws w c : ℤ) (st : RateStore)
    (h : storeGet st key = some ⟨w, c⟩) (hwin : now - w < ws * 1000) (hc : c ≥ mx) :
    checkRateLimitKey now key mx ws st =
      (⟨false, jsCeilMs (ws * 1000 - (now - w))⟩, st) := by
  simp [checkRateLimitKey, h, not_le.mpr hwin, hc]

/-! ### Client identity -/

/-- The request data `clientKey` reads: two IP headers, the user-agent
header, and the `request.cf` geo/routing hints.  `none` models an absent
header (`headers.get` returning null) or an absent `cf` field. -/
structure ClientInfo where
  cfConnectingIp : Option String
  xForwardedFor : Option String
  userAgent : Option String
  country : Option String
  colo : Option String
deriving DecidableEq, Repr

/-- JavaScript `a || b` on nullable strings: `a` unless it is null or
empty (falsy), else `b`. -/
def jsOrOpt (a b : Option String) : Option String :=
  match a with
  | some s => if s = "" then b else some s
  | none => b

/-- JavaScript `a || d` with a string-literal fallback. -/
def jsOrDefault (a : Option String) (d : String) : String :=
  match a with
  | some s => if s = "" then d else s
  | none => d

/-- Embedding of `clientKey` (src/index.ts lines 247-261): prefer the
`cf-connecting-ip` header, fall back to `x-forwarded-for`, then to the
`"no-ip"` sentinel (JS `||`, so empty-string headers are also skipped);
`user-agent`, `cf.country` and `cf.colo` default via `??` to their `no-*`
sentinels; join the pieces with `|`. -/
def clientKey (req : ClientInfo) : String :=
  let ip := jsOrDefault (jsOrOpt req.cfConnectingIp req.xForwardedFor) "no-ip"
  let ua := req.userAgent.getD "no-ua"
  let country := req.country.getD "no-country"
  let colo := req.colo.getD "no-colo"
  ip ++ "|" ++ country ++ "|" ++ colo ++ "|" ++ ua

/-- Embedding of `checkRateLimit` as called by the router (src/index.ts
line 229): derive the client key from the request, then run the
fixed-window algorithm on the shared store. -/
def checkRateLimit (now : ℤ) (req : ClientInfo) (maxRequests windowSeconds : ℤ)
    (st : RateStore) : RateResult × RateStore :=
  checkRateLimitKey now (clientKey req) maxRequests windowSeconds st

/-- C8: `clientKey` is deterministic — identical headers and geo hints give
identical keys — and the key is the trusted proxy IP header, else the
forwarded-for header, else the `"no-ip"` sentinel, joined by `|` with the
two geo/routing hints (sentinel-defaulted when absent) and the
user-agent. -/
theorem clientKey_spec :
    (∀ r1 r2 : ClientInfo, r1 = r2 → clientKey r1 = clientKey r2) ∧
    (∀ r : ClientInfo, ∃ ip,
      clientKey r = ip ++ "|" ++ r.country.getD "no-country" ++ "|" ++
        r.colo.getD "no-colo" ++ "|" ++ r.userAgent.getD "no-ua" ∧
      ((r.cfConnectingIp = some ip ∧ ip ≠ "") ∨
       ((r.cfConnectingIp = none ∨ r.cfConnectingIp = some "") ∧
        r.xForwardedFor = some ip ∧ ip ≠ "") ∨
       ((r.cfConnectingIp = none ∨ r.cfConnectingIp = some "") ∧
        (r.xForwardedFor = none ∨ r.xForwardedFor = some "") ∧ ip = "no-ip"))) := by
  refine ⟨fun r1 r2 h => h ▸ rfl, fun r => ?_⟩
  rcases r with ⟨cf, xf, ua, co, colo⟩
  rcases cf with _ | ip1
  · rcases xf with _ | ip2
    · exact ⟨"no-ip", rfl, Or.inr (Or.inr ⟨Or.inl rfl, Or.inl rfl, rfl⟩)⟩
    · by_cases h2 : ip2 = ""
      · subst h2
        exact ⟨"no-ip", rfl, Or.inr (Or.inr ⟨Or.inl rfl, Or.inr rfl, rfl⟩)⟩
      · refine ⟨ip2, ?_, Or.inr (Or.inl ⟨Or.inl rfl, rfl, h2⟩)⟩
        simp [clientKey, jsOrDefault, jsOrOpt, h2]
  · by_cases h1 : ip1 = ""
    · subst h1
      rcases xf with _ | ip2
      · exact ⟨"no-ip", rfl, Or.inr (Or.inr ⟨Or.inr rfl, Or.inl rfl, rfl⟩)⟩
      · by_cases h2 : ip2 = ""
        · subst h2
          exact ⟨"no-ip", rfl, Or.inr (Or.inr ⟨Or.inr rfl, Or.inr rfl, rfl⟩)⟩
        · refine ⟨ip2, ?_, Or.inr (Or.inl ⟨Or.inr rfl, rfl, h2⟩)⟩
          simp [clientKey, jsOrDefault, jsOrOpt, h2]
    · refine ⟨ip1, ?_, Or.inl ⟨rfl, h1⟩⟩
      simp [clientKey, jsOrDefault, jsOrOpt, h1]

/-- Witness for C8 at a concrete request. -/
theorem clientKey_spec_witness :
    clientKey ⟨some "203.0.113.9", none, some "curl/8", some "US", some "SJC"⟩ =
      clientKey ⟨some "203.0.113.9", none, some "curl/8", some "US", some "SJC"⟩ :=
  clientKey_spec.1 _ _ rfl

example :
    clientKey ⟨some "203.0.113.9", none, some "curl/8", some "US", some "SJC"⟩ =
      "203.0.113.9|US|SJC|curl/8" := by decide
example : clientKey ⟨none, none, none, none, none⟩ = "no-ip|no-country|no-colo|no-ua" := by
  decide
example : clientKey ⟨some "", some "9.9.9.9", none, none, none⟩ =
    "9.9.9.9|no-country|no-colo|no-ua" := by decide

/-! ### Sequences of rate-limit checks -/

/-- A sequence of `checkRateLimit` calls: each element pairs the
`Date.now()` reading with the derived client key of one call.  Returns the
per-call results and the final store. -/
def runCalls (mx ws : ℤ) : List (ℤ × String) → RateStore → List RateResult × RateStore
  | [], st => ([], st)
  | (t, k) :: rest, st =>
    let step := checkRateLimitKey t k mx ws st
    let next := runCalls mx ws rest step.2
    (step.1 :: next.1, next.2)

/-- The store states visited by a call sequence, initial store first. -/
def runStores (mx ws : ℤ) : List (ℤ × String) → RateStore → List RateStore
  | [], st => [st]
  | (t, k) :: rest, st => st :: runStores mx ws rest (checkRateLimitKey t k mx ws st).2

lemma runCalls_inWindow (key : String) (mx ws w c : ℤ) (ts : List ℤ) (st : RateStore)
    (hst : storeGet st key = some ⟨w, c⟩)
    (hts : ∀ t ∈ ts, t - w < ws * 1000)
    (hc : c + ts.length ≤ mx) :
    (∀ r ∈ (runCalls mx ws (ts.map fun t => (t, key)) st).1, r.allowed = true) ∧
    storeGet (runCalls mx ws (ts.map fun t => (t, key)) st).2 key =
      some ⟨w, c + ts.length⟩ := by
  induction ts generalizing st c with
  | nil => exact ⟨by simp [runCalls], by simpa using hst⟩
  | cons t rest ih =>
    have hwin : t - w < ws * 1000 := hts t (List.mem_cons_self t rest)
    have hlt : c < mx := by
      have hlen := hc
      rw [List.length_cons] at hlen
      push_cast at hlen
      omega
    have hstep := checkRateLimitKey_increment t key mx ws w c st hst hwin hlt
    have hst' : storeGet (storeSet st key ⟨w, c + 1⟩) key = some ⟨w, c + 1⟩ :=
      storeGet_storeSet_self _ _ _
    have ihr := ih (c + 1) (storeSet st key ⟨w, c + 1⟩) hst'
      (fun t' ht' => hts t' (List.mem_cons_of_mem _ ht'))
      (by rw [List.length_cons] at hc; push_cast at hc ⊢; omega)
    rw [List.map_cons]
    simp only [runCalls, hstep]
    constructor
    · intro r hr
      rcases List.mem_cons.mp hr with h | h
      · rw [h]
      · exact ihr.1 r h
    · rw [List.length_cons]
      push_cast
      rw [show c + ((rest.length : ℤ) + 1) = (c + 1) + (rest.length : ℤ) by ring]
      exact ihr.2

/-- C2: with `maxRequests = 20`, `windowSeconds = 60`: a call finding no
entry or an elapsed window resets to `{windowStart: now, count: 1}` and
allows; starting from no entry, the first 20 calls inside the 60 s window
are allowed and leave the entry at `{t0, 20}`; a 21st in-window call is
rejected with `retryAfterSeconds = ⌈(windowMs - (now - windowStart)) / 1000⌉`;
a call at or after window expiry (e.g. `t0 + 61 s`) is allowed and resets
the count to 1. -/
theorem checkRateLimit_fixed_window (key : String) (t0 t21 t22 : ℤ) (rest : List ℤ)
    (st0 : RateStore)
    (h0 : storeGet st0 key = none ∨
      ∃ e, storeGet st0 key = some e ∧ t0 - e.windowStartMs ≥ 60 * 1000)
    (hlen : rest.length = 19)
    (hrest : ∀ t ∈ rest, t - t0 < 60 * 1000)
    (h21 : t21 - t0 < 60 * 1000)
    (h22 : t22 - t0 ≥ 60 * 1000) :
    (∀ now st, (storeGet st key = none ∨
        ∃ e, storeGet st key = some e ∧ now - e.windowStartMs ≥ 60 * 1000) →
      checkRateLimitKey now key 20 60 st = (⟨true, 0⟩, storeSet st key ⟨now, 1⟩)) ∧
    (∀ r ∈ (runCalls 20 60 ((t0 :: rest).map fun t => (t, key)) st0).1,
      r.allowed = true) ∧
    storeGet (runCalls 20 60 ((t0 :: rest).map fun t => (t, key)) st0).2 key =
      some ⟨t0, 20⟩ ∧
    checkRateLimitKey t21 key 20 60
        (runCalls 20 60 ((t0 :: rest).map fun t => (t, key)) st0).2 =
      (⟨false, ⌈((60 * 1000 - (t21 - t0) : ℤ) : ℚ) / 1000⌉⟩,
       (runCalls 20 60 ((t0 :: rest).map fun t => (t, key)) st0).2) ∧
    (checkRateLimitKey t22 key 20 60
        (runCalls 20 60 ((t0 :: rest).map fun t => (t, key)) st0).2).1.allowed = true ∧
    storeGet (checkRateLimitKey t22 key 20 60
        (runCalls 20 60 ((t0 :: rest).map fun t => (t, key)) st0).2).2 key =
      some ⟨t22, 1⟩ := by
  have hreset := checkRateLimitKey_reset t0 key 20 60 st0 h0
  have hget1 : storeGet (storeSet st0 key ⟨t0, 1⟩) key = some ⟨t0, 1⟩ :=
    storeGet_storeSet_self _ _ _
  have hwin := runCalls_inWindow key 20 60 t0 1 rest (storeSet st0 key ⟨t0, 1⟩) hget1 hrest
    (by rw [hlen]; norm_num)
  have hrun : runCalls 20 60 ((t0 :: rest).map fun t => (t, key)) st0 =
      (⟨true, 0⟩ :: (runCalls 20 60 (rest.map fun t => (t, key)) (storeSet st0 key ⟨t0, 1⟩)).1,
       (runCalls 20 60 (rest.map fun t => (t, key)) (storeSet st0 key ⟨t0, 1⟩)).2) := by
    simp only [List.map_cons, runCalls, hreset]
  have hW : storeGet (runCalls 20 60 ((t0 :: rest).map fun t => (t, key)) st0).2 key =
      some ⟨t0, 20⟩ := by
    rw [hrun]
    have h2 := hwin.2
    rw [hlen] at h2
    norm_num at h2
    exact h2
  refine ⟨fun now st h => checkRateLimitKey_reset now key 20 60 st h, ?_, hW, ?_, ?_, ?_⟩
  · rw [hrun]
    intro r hr
    rcases List.mem_cons.mp hr with h | h
    · rw [h]
    · exact hwin.1 r h
  · rw [show (⌈((60 * 1000 - (t21 - t0) : ℤ) : ℚ) / 1000⌉ : ℤ) =
        jsCeilMs (60 * 1000 - (t21 - t0)) from (jsCeilMs_eq_ceil _).symm]
    exact checkRateLimitKey_reject t21 key 20 60 t0 20 _ hW h21 (le_refl 20)
  · rw [checkRateLimitKey_reset t22 key 20 60 _ (Or.inr ⟨⟨t0, 20⟩, hW, h22⟩)]
  · rw [checkRateLimitKey_reset t22 key 20 60 _ (Or.inr ⟨⟨t0, 20⟩, hW, h22⟩)]
    exact storeGet_storeSet_self _ _ _

/-- Witness for C2: key `"k"`, window start 0, nineteen further calls at
1000 ms, a 21st call at 30000 ms, and a 22nd at 61000 ms. -/
theorem checkRateLimit_fixed_window_witness :
    storeGet (runCalls 20 60 (((0 : ℤ) :: List.replicate 19 (1000 : ℤ)).map
      fun t => (t, "k")) []).2 "k" = some ⟨0, 20⟩ :=
  (checkRateLimit_fixed_window "k" 0 30000 61000 (List.replicate 19 1000) []
    (Or.inl rfl) (by decide) (by decide) (by decide) (by decide)).2.2.1

/-! ### Store invariants -/

/-- Well-formedness of the rate-limit store at clock reading `t`: every
stored entry has a non-negative count and a window start no later than
`t`. -/
def StoreWF (t : ℤ) (st : RateStore) : Prop :=
  ∀ p ∈ st, 0 ≤ p.2.count ∧ p.2.windowStartMs ≤ t

lemma storeGet_mem (st : RateStore) (k : String) (e : RateEntry)
    (h : storeGet st k = some e) : (k, e) ∈ st := by
  rw [storeGet] at h
  rcases hf : st.find? (fun p => p.1 = k) with _ | p
  · rw [hf] at h
    exact absurd h (by simp)
  · rw [hf] at h
    have hmem := List.mem_of_find?_eq_some hf
    have hk : p.1 = k := by simpa using List.find?_some hf
    have he : p.2 = e := by simpa using h
    have : p = (k, e) := Prod.ext hk he
    exact this ▸ hmem

/-- One `checkRateLimit` call preserves store well-formedness and never
decreases the stored window start of any key. -/
lemma checkRateLimitKey_wf (now : ℤ) (k : String) (mx ws : ℤ) (st : RateStore) (tprev : ℤ)
    (hwf : StoreWF tprev st) (hle : tprev ≤ now) :
    StoreWF now (checkRateLimitKey now k mx ws st).2 ∧
    (∀ k' e e', storeGet st k' = some e →
      storeGet (checkRateLimitKey now k mx ws st).2 k' = some e' →
      e.windowStartMs ≤ e'.windowStartMs) := by
  have hwfset : ∀ enew : RateEntry, 0 ≤ enew.count → enew.windowStartMs ≤ now →
      StoreWF now (storeSet st k enew) := by
    intro enew h1 h2 p hp
    rcases mem_storeSet st k enew p hp with h | h
    · rw [h]
      exact ⟨h1, h2⟩
    · rcases hwf p h with ⟨hc, hw⟩
      exact ⟨hc, le_trans hw hle⟩
  have hmono_set : ∀ enew : RateEntry, (∀ e : RateEntry, storeGet st k = some e →
      e.windowStartMs ≤ enew.windowStartMs) →
      ∀ k' e e', storeGet st k' = some e →
        storeGet (storeSet st k enew) k' = some e' →
        e.windowStartMs ≤ e'.windowStartMs := by
    intro enew hk k' e e' hget hget'
    by_cases hkk : k' = k
    · subst hkk
      rw [storeGet_storeSet_self] at hget'
      cases hget'
      exact hk e hget
    · rw [storeGet_storeSet_ne st k k' enew hkk] at hget'
      rw [hget] at hget'
      cases hget'
      exact le_refl _
  rcases hg : storeGet st k with _ | entry
  · rw [checkRateLimitKey_reset now k mx ws st (Or.inl hg)]
    refine ⟨hwfset ⟨now, 1⟩ (by norm_num) (le_refl now), ?_⟩
    exact hmono_set ⟨now, 1⟩ (fun e he => by rw [hg] at he; cases he)
  · by_cases hwin : now - entry.windowStartMs ≥ ws * 1000
    · rw [checkRateLimitKey_reset now k mx ws st (Or.inr ⟨entry, hg, hwin⟩)]
      refine ⟨hwfset ⟨now, 1⟩ (by norm_num) (le_refl now), ?_⟩
      refine hmono_set ⟨now, 1⟩ (fun e he => ?_)
      rw [hg] at he
      cases he
      exact le_trans (hwf (k, entry) (storeGet_mem st k entry hg)).2 hle
    · push_neg at hwin
      by_cases hc : entry.count ≥ mx
      · rw [checkRateLimitKey_reject now k mx ws entry.windowStartMs entry.count st
          (by rw [hg]) hwin hc]
        refine ⟨fun p hp => ?_, fun k' e e' hget hget' => ?_⟩
        · rcases hwf p hp with ⟨h1, h2⟩
          exact ⟨h1, le_trans h2 hle⟩
        · rw [hget] at hget'
          cases hget'
          exact le_refl _
      · push_neg at hc
        rw [checkRateLimitKey_increment now k mx ws entry.windowStartMs entry.count st
          (by rw [hg]) hwin hc]
        have hcount : 0 ≤ entry.count := (hwf (k, entry) (storeGet_mem st k entry hg)).1
        refine ⟨hwfset ⟨entry.windowStartMs, entry.count + 1⟩
          (by show (0 : ℤ) ≤ entry.count + 1; omega)
          (le_trans (hwf (k, entry) (storeGet_mem st k entry hg)).2 hle), ?_⟩
        refine hmono_set ⟨entry.windowStartMs, entry.count + 1⟩ (fun e he => ?_)
        rw [hg] at he
        cases he
        exact le_refl _

lemma runStores_head (mx ws : ℤ) (calls : List (ℤ × String)) (st : RateStore) :
    ∃ tl, runStores mx ws calls st = st :: tl := by
  cases calls with
  | nil => exact ⟨[], rfl⟩
  | cons c rest =>
    obtain ⟨t, k⟩ := c
    exact ⟨runStores mx ws rest (checkRateLimitKey t k mx ws st).2, rfl⟩

lemma runStores_wf (mx ws : ℤ) (calls : List (ℤ × String)) (st0 : RateStore) (tprev : ℤ)
    (hwf : StoreWF tprev st0)
    (hchain : List.Chain' (· ≤ ·) (tprev :: calls.map Prod.fst)) :
    (∀ st ∈ runStores mx ws calls st0, ∀ p ∈ st, 0 ≤ p.2.count) ∧
    List.Chain' (fun s s' => ∀ k e e', storeGet s k = some e → storeGet s' k = some e' →
      e.windowStartMs ≤ e'.windowStartMs) (runStores mx ws calls st0) := by
  induction calls generalizing st0 tprev with
  | nil =>
    refine ⟨fun st hst p hp => ?_, by simp [runStores]⟩
    rw [runStores] at hst
    rcases List.mem_singleton.mp hst with h
    exact (hwf p (h ▸ hp)).1
  | cons c rest ih =>
    obtain ⟨t, k⟩ := c
    rw [List.map_cons] at hchain
    have hle : tprev ≤ t := (List.chain'_cons.mp hchain).1
    have hstep := checkRateLimitKey_wf t k mx ws st0 tprev hwf hle
    have ihr := ih (checkRateLimitKey t k mx ws st0).2 t hstep.1 (List.chain'_cons.mp hchain).2
    rw [runStores]
    constructor
    · intro st hst p hp
      rcases List.mem_cons.mp hst with h | h
      · exact (hwf p (h ▸ hp)).1
      · exact ihr.1 st h p hp
    · obtain ⟨tl, htl⟩ := runStores_head mx ws rest (checkRateLimitKey t k mx ws st0).2
      rw [htl]
      rw [htl] at ihr
      exact List.chain'_cons.mpr ⟨hstep.2, ihr.2⟩

/-- C9: along any sequence of `checkRateLimit` calls with non-decreasing
clock readings, started from the empty store, every stored entry has
`count ≥ 0` after each call, and each key's stored `windowStartMs` never
decreases from one store state to the next. -/
theorem rateLimit_invariants (mx ws : ℤ) (calls : List (ℤ × String))
    (hchain : List.Chain' (· ≤ ·) (calls.map Prod.fst)) :
    (∀ st ∈ runStores mx ws calls [], ∀ p ∈ st, 0 ≤ p.2.count) ∧
    List.Chain' (fun s s' => ∀ k e e', storeGet s k = some e → storeGet s' k = some e' →
      e.windowStartMs ≤ e'.windowStartMs) (runStores mx ws calls []) := by
  cases calls with
  | nil =>
    exact runStores_wf mx ws [] [] 0 (fun p hp => absurd hp (List.not_mem_nil p)) (by simp)
  | cons c rest =>
    refine runStores_wf mx ws (c :: rest) [] c.1
      (fun p hp => absurd hp (List.not_mem_nil p)) ?_
    rw [List.map_cons]
    exact List.chain'_cons.mpr ⟨le_refl c.1, by simpa using hchain⟩

/-- Witness for C9: three interleaved calls for two keys with
non-decreasing clocks. -/
theorem rateLimit_invariants_witness :
    (∀ st ∈ runStores 20 60 [((0 : ℤ), "a"), ((5 : ℤ), "b"), ((70000 : ℤ), "a")] [],
      ∀ p ∈ st, 0 ≤ p.2.count) ∧
    List.Chain' (fun s s' => ∀ k e e', storeGet s k = some e → storeGet s' k = some e' →
      e.windowStartMs ≤ e'.windowStartMs)
      (runStores 20 60 [((0 : ℤ), "a"), ((5 : ℤ), "b"), ((70000 : ℤ), "a")] []) :=
  rateLimit_invariants 20 60 [((0 : ℤ), "a"), ((5 : ℤ), "b"), ((70000 : ℤ), "a")]
    (by norm_num [List.chain'_cons])

/-! ### Key-value capabilities (edge cache, `Headers`)

Both the edge cache (`cache.match` / `cache.put`, exact-match retrieval
with overwrite-on-store) and the `Headers` object (case-insensitive
`get` / `set`) are keyed string maps; `alGet`/`alSet` model one binding
per key over an association list. -/

def alGet {α : Type} (m : List (String × α)) (k : String) : Option α :=
  match m.find? (fun p => p.1 = k) with
  | some p => some p.2
  | none => none

def alSet {α : Type} (m : List (String × α)) (k : String) (v : α) : List (String × α) :=
  if m.any (fun p => p.1 = k) then m.map (fun p => if p.1 = k then (k, v) else p)
  else m ++ [(k, v)]

lemma alSet_cons_ne {α : Type} (p : String × α) (m : List (String × α)) (k : String) (v : α)
    (h : p.1 ≠ k) : alSet (p :: m) k v = p :: alSet m k v := by
  by_cases ha : m.any (fun q => q.1 = k)
  · simp [alSet, ha, h]
  · simp [alSet, ha, h]

lemma alGet_cons_ne {α : Type} (p : String × α) (m : List (String × α)) (k : String)
    (h : p.1 ≠ k) : alGet (p :: m) k = alGet m k := by
  simp [alGet, List.find?, h]

lemma alGet_alSet_self {α : Type} (m : List (String × α)) (k : String) (v : α) :
    alGet (alSet m k v) k = some v := by
  induction m with
  | nil => simp [alSet, alGet, List.find?]
  | cons p rest ih =>
    by_cases hp : p.1 = k
    · have ha : (p :: rest).any (fun q => q.1 = k) = true := by
        simp [List.any_cons, hp]
      simp only [alSet, ha, if_true, List.map_cons, hp, if_pos]
      simp [alGet, List.find?]
    · rw [alSet_cons_ne p rest k v hp, alGet_cons_ne p _ k hp]
      exact ih

lemma alGet_map_replace {α : Type} (m : List (String × α)) (k k' : String) (v : α)
    (h : k' ≠ k) :
    alGet (m.map (fun p => if p.1 = k then (k, v) else p)) k' = alGet m k' := by
  induction m with
  | nil => rfl
  | cons p rest ih =>
    by_cases hp : p.1 = k
    · rw [List.map_cons, if_pos hp, alGet_cons_ne (k, v) _ k' (fun hh => h hh.symm),
        alGet_cons_ne p rest k' (by rw [hp]; exact fun hh => h hh.symm)]
      exact ih
    · rw [List.map_cons, if_neg hp]
      by_cases hpk : p.1 = k'
      · simp [alGet, List.find?, hpk]
      · rw [alGet_cons_ne _ _ k' hpk, alGet_cons_ne p rest k' hpk]
        exact ih

lemma alGet_append_single_ne {α : Type} (m : List (String × α)) (k k' : String) (v : α)
    (h : k' ≠ k) : alGet (m ++ [(k, v)]) k' = alGet m k' := by
  induction m with
  | nil => simp [alGet, List.find?, Ne.symm h]
  | cons p rest ih =>
    by_cases hpk : p.1 = k'
    · simp [alGet, List.find?, hpk]
    · rw [List.cons_append, alGet_cons_ne p _ k' hpk, alGet_cons_ne p rest k' hpk]
      exact ih

lemma alGet_alSet_ne {α : Type} (m : List (String × α)) (k k' : String) (v : α)
    (h : k' ≠ k) : alGet (alSet m k v) k' = alGet m k' := by
  by_cases ha : m.any (fun q => q.1 = k)
  · rw [alSet, if_pos ha]
    exact alGet_map_replace m k k' v h
  · rw [alSet, if_neg ha]
    exact alGet_append_single_ne m k k' v h

/-! ### Fetch pipeline -/

/-- The observable parts of an upstream `Response` the pipeline reads:
`status`, the `content-type` header, and the result of `await .text()`
(`none` models the body read throwing). -/
structure UpstreamResponse where
  status : ℤ
  contentType : Option String
  textResult : Option String
deriving DecidableEq, Repr

/-- The behaviour of the platform `fetch` capability (plus the wall clock)
for one origin fetch attempt: either a response after `elapsedMs`
milliseconds, or a thrown transport error with its extracted message. -/
inductive FetchOutcome where
  | success (resp : UpstreamResponse) (elapsedMs : ℤ)
  | failure (elapsedMs : ℤ) (message : String)
deriving DecidableEq, Repr

/-- The error body built by `fetchWithTiming` on a transport failure
(src/index.ts lines 175-183). -/
structure ErrorBody where
  targetUrl : String
  status : Option ℤ
  elapsedMs : ℤ
  contentType : Option String
  preview : Option String
  error : String
  message : String
deriving DecidableEq, Repr

/-- The tagged union returned by `fetchWithTiming`. -/
inductive TimedFetch where
  | ok (response : UpstreamResponse) (elapsedMs : ℤ)
  | err (elapsedMs : ℤ) (errorBody : ErrorBody)
deriving DecidableEq, Repr

/-- Embedding of `fetchWithTiming` (src/index.ts lines 159-186): a
successful `await fetch` yields `ok` with the elapsed time; a thrown
transport error yields `err` with the fixed error body (`status : null`,
`contentType: null`, `preview: null`, code `upstream_fetch_failed` and the
error's message). -/
def fetchWithTiming (targetUrl : String) (outcome : FetchOutcome) : TimedFetch :=
  match outcome with
  | .success resp elapsedMs => .ok resp elapsedMs
  | .failure elapsedMs msg =>
    .err elapsedMs ⟨targetUrl, none, elapsedMs, none, none, "upstream_fetch_failed", msg⟩

/-- Does `pat` occur as a contiguous substring (`String.prototype.includes`)? -/
def hasSubstr (pat : List Char) : List Char → Bool
  | [] => pat.isPrefixOf []
  | c :: rest => pat.isPrefixOf (c :: rest) || hasSubstr pat rest

/-- `text.slice(0, n)` — the first `n` characters. -/
def jsSlice (s : String) (n : ℕ) : String := String.mk (s.data.take n)

/-- The summary object built for a successful origin fetch. -/
structure FetchSummary where
  targetUrl : String
  status : ℤ
  elapsedMs : ℤ
  contentType : Option String
  preview : Option String
deriving DecidableEq, Repr

/-- Embedding of `buildFetchSummary` (src/index.ts lines 189-213): read
the content type; a preview is extracted only when it starts with `text/`
or contains `application/json`; the body text is cut to 300 characters; a
body-read failure leaves the preview `null`. -/
def buildFetchSummary (targetUrl : String) (upstream : UpstreamResponse) (elapsedMs : ℤ) :
    FetchSummary :=
  let contentType := upstream.contentType
  let previewable := match contentType with
    | some ct => jsStartsWith ct.toList "text/".toList ||
        hasSubstr "application/json".toList ct.toList
    | none => false
  let preview : Option String :=
    if previewable then
      match upstream.textResult with
      | some text => some (jsSlice text 300)
      | none => none
    else none
  ⟨targetUrl, upstream.status, elapsedMs, contentType, preview⟩

/-- Decimal rendering of a natural number (fuel-driven so it evaluates in
the kernel). -/
def natToCharsAux : ℕ → ℕ → List Char → List Char
  | 0, _, acc => acc
  | fuel + 1, n, acc =>
    if n < 10 then Char.ofNat (48 + n) :: acc
    else natToCharsAux fuel (n / 10) (Char.ofNat (48 + n % 10) :: acc)

/-- JavaScript `String(i)` for an integer-valued number. -/
def jsIntToString (i : ℤ) : String :=
  match i with
  | .ofNat n => String.mk (natToCharsAux (n + 1) n [])
  | .negSucc m => String.mk ('-' :: natToCharsAux (m + 2) (m + 1) [])

example : jsIntToString 0 = "0" := by decide
example : jsIntToString 1234 = "1234" := by decide
example : jsIntToString (-57) = "-57" := by decide

/-- Lower-cased header name, as the `Headers` object normalises names. -/
def lowerName (s : String) : String := String.mk (jsToLower s.toList)

/-- `headers.get(name)` — case-insensitive. -/
def headerGet (hs : List (String × String)) (name : String) : Option String :=
  alGet hs (lowerName name)

/-- `headers.set(name, value)` — case-insensitive overwrite. -/
def headersSet (hs : List (String × String)) (name value : String) :
    List (String × String) :=
  alSet hs (lowerName name) value

/-- The JSON value serialised into a response body.  `JSON.stringify` is
injective on these distinct shapes, so body equality models byte equality
of the serialised bodies. -/
inductive BodyVal where
  | summary (s : FetchSummary)
  | upstreamError (e : ErrorBody)
  | errorMsg (code message : String)
deriving DecidableEq, Repr

/-- A worker `Response`: status, headers (normalised names) and body. -/
structure WResponse where
  status : ℤ
  headers : List (String × String)
  body : BodyVal
deriving DecidableEq, Repr

/-- Module-level `REQUEST_SEQ` (src/index.ts line 14): initialised to 0 and
never mutated (the `let` inside `fetch` only shadows it). -/
def REQUEST_SEQ : ℤ := 0

/-- Embedding of `jsonResponse` (src/index.ts lines 272-279, revision 1):
content-type, the constant `X-Debug-Req` header, then the extra headers. -/
def jsonResponse (data : BodyVal) (status : ℤ) (extraHeaders : List (String × String)) :
    WResponse :=
  { status := status
    headers := [("content-type", "application/json; charset=utf-8"),
                ("x-debug-req", jsIntToString REQUEST_SEQ)] ++
      extraHeaders.map (fun p => (lowerName p.1, p.2))
    body := data }

/-- Embedding of `jsonError` (src/index.ts lines 281-283). -/
def jsonError (code message : String) (status : ℤ) : WResponse :=
  jsonResponse (.errorMsg code message) status []

/-- Embedding of `withHeader` (src/index.ts lines 153-157): copy the
headers, set the given one, rebuild the response around the same body and
status. -/
def withHeader (resp : WResponse) (key value : String) : WResponse :=
  { status := resp.status, headers := headersSet resp.headers key value, body := resp.body }

/-- The edge cache (`caches.default`), keyed by the canonical target URL
(the cache key request is `new Request(targetUrl.toString(), {method:"GET"})`,
and the method is always GET). -/
abbrev CacheState := List (String × WResponse)

/-- `cache.match(key)`: exact-match retrieval. -/
def cacheMatch (cache : CacheState) (k : String) : Option WResponse := alGet cache k

/-- `cache.put(key, resp)`: overwrite-on-store. -/
def cachePut (cache : CacheState) (k : String) (r : WResponse) : CacheState := alSet cache k r

/-- Counters for the boundary operations a `handleFetch` run performs. -/
structure Effects where
  cacheLookups : ℕ
  cacheStores : ℕ
  originFetches : ℕ
deriving DecidableEq, Repr

/-- The outcome of one `handleFetch` run: the response, the cache state
after the run, and the boundary-operation counts. -/
structure PipelineResult where
  resp : WResponse
  cache : CacheState
  effects : Effects
deriving DecidableEq, Repr

/-- Embedding of `handleFetch` (src/index.ts lines 75-117): validate,
SSRF-check, cache lookup, timed origin fetch, summary, cache store.  The
platform `fetch` behaviour for this request is the `outcome` parameter;
the cache is threaded as state. -/
def handleFetch (parse : String → Option JSURL) (query : Option String)
    (cache : CacheState) (outcome : FetchOutcome) : PipelineResult :=
  match getValidatedHttpsUrl parse query with
  | none =>
    ⟨jsonError "bad_request"
      "Missing/invalid \"url\". Example: /fetch?url=https://example.com" 400,
     cache, ⟨0, 0, 0⟩⟩
  | some targetUrl =>
    if isBlockedHost targetUrl.hostname then
      ⟨jsonError "blocked_target"
        "That target host is blocked for safety (localhost/private network)." 400,
       cache, ⟨0, 0, 0⟩⟩
    else
      match cacheMatch cache targetUrl.href with
      | some cached => ⟨withHeader cached "X-Cache" "HIT", cache, ⟨1, 0, 0⟩⟩
      | none =>
        match fetchWithTiming targetUrl.href outcome with
        | .err elapsedMs errorBody =>
          ⟨jsonResponse (.upstreamError errorBody) 502
            [("X-Edge-Fetch-Ms", jsIntToString elapsedMs)],
           cache, ⟨1, 0, 1⟩⟩
        | .ok upstream elapsedMs =>
          let body := buildFetchSummary targetUrl.href upstream elapsedMs
          let resp := jsonResponse (.summary body) 200
            [("X-Edge-Fetch-Ms", jsIntToString elapsedMs), ("X-Cache", "MISS"),
             ("Cache-Control", "public, max-age=60")]
          ⟨resp, cachePut cache targetUrl.href resp, ⟨1, 1, 1⟩⟩

lemma buildFetchSummary_preview_eq (targetUrl : String) (st : ℤ)
    (ctOpt txtOpt : Option String) (e : ℤ) :
    (buildFetchSummary targetUrl ⟨st, ctOpt, txtOpt⟩ e).preview =
      match ctOpt with
      | some ct =>
        if jsStartsWith ct.toList "text/".toList ||
            hasSubstr "application/json".toList ct.toList then
          match txtOpt with
          | some text => some (jsSlice text 300)
          | none => none
        else none
      | none => none := by
  cases ctOpt <;> rfl

/-- C6: `buildFetchSummary` yields a preview (on a readable body) exactly
when the content type starts with `text/` or contains `application/json`;
a previewable body longer than 300 characters is cut to exactly 300
characters, one of at most 300 characters is kept unmodified, a
non-previewable content type gives a `none` preview regardless of body
length, and a body-read failure is swallowed into a `none` preview. -/
theorem buildFetchSummary_preview_spec (targetUrl : String) (up : UpstreamResponse)
    (e : ℤ) :
    (∀ t, up.textResult = some t →
      ((buildFetchSummary targetUrl up e).preview ≠ none ↔
        ∃ ct, up.contentType = some ct ∧
          (jsStartsWith ct.toList "text/".toList = true ∨
           hasSubstr "application/json".toList ct.toList = true))) ∧
    (∀ ct t, up.contentType = some ct →
      (jsStartsWith ct.toList "text/".toList = true ∨
       hasSubstr "application/json".toList ct.toList = true) →
      up.textResult = some t →
      (300 < t.data.length →
        (buildFetchSummary targetUrl up e).preview = some (jsSlice t 300) ∧
        (jsSlice t 300).data.length = 300) ∧
      (t.data.length ≤ 300 →
        (buildFetchSummary targetUrl up e).preview = some t)) ∧
    ((∀ ct, up.contentType = some ct →
        jsStartsWith ct.toList "text/".toList = false ∧
        hasSubstr "application/json".toList ct.toList = false) →
      (buildFetchSummary targetUrl up e).preview = none) ∧
    (up.textResult = none → (buildFetchSummary targetUrl up e).preview = none) := by
  rcases up with ⟨st, ctOpt, txtOpt⟩
  simp only [buildFetchSummary_preview_eq]
  refine ⟨?_, ?_, ?_, ?_⟩
  · intro t ht
    change txtOpt = some t at ht
    subst ht
    cases ctOpt with
    | none => simp
    | some ct =>
      dsimp only
      by_cases hb : (jsStartsWith ct.toList "text/".toList ||
          hasSubstr "application/json".toList ct.toList) = true
      · rw [if_pos hb]
        rw [Bool.or_eq_true] at hb
        constructor
        · intro _
          exact ⟨ct, rfl, hb⟩
        · intro _
          simp
      · rw [if_neg hb]
        rw [Bool.or_eq_true] at hb
        push_neg at hb
        simp [Bool.not_eq_true] at hb
        simp [hb.1, hb.2]
  · intro ct t hct hb ht
    change ctOpt = some ct at hct
    change txtOpt = some t at ht
    subst hct
    subst ht
    dsimp only
    have hbtrue : (jsStartsWith ct.toList "text/".toList ||
        hasSubstr "application/json".toList ct.toList) = true := by
      rw [Bool.or_eq_true]
      exact hb
    rw [if_pos hbtrue]
    constructor
    · intro hlen
      refine ⟨rfl, ?_⟩
      rw [jsSlice]
      show (t.data.take 300).length = 300
      rw [List.length_take]
      omega
    · intro hlen
      have : t.data.take 300 = t.data := List.take_of_length_le hlen
      rw [jsSlice, this]
  · intro hna
    cases ctOpt with
    | none => rfl
    | some ct =>
      rcases hna ct rfl with ⟨h1, h2⟩
      dsimp only
      rw [if_neg (by rw [h1, h2]; simp)]
  · intro ht
    change txtOpt = none at ht
    subst ht
    cases ctOpt with
    | none => rfl
    | some ct =>
      dsimp only
      by_cases hb : (jsStartsWith ct.toList "text/".toList ||
          hasSubstr "application/json".toList ct.toList) = true
      · rw [if_pos hb]
      · rw [if_neg hb]

set_option maxRecDepth 4000 in
/-- Witness for C6: a `text/plain` body of 301 characters is cut to 300. -/
theorem buildFetchSummary_preview_spec_witness :
    (buildFetchSummary "https://example.com/"
      ⟨200, some "text/plain", some (String.mk (List.replicate 301 'a'))⟩ 7).preview =
      some (jsSlice (String.mk (List.replicate 301 'a')) 300) ∧
    (jsSlice (String.mk (List.replicate 301 'a')) 300).data.length = 300 :=
  ((buildFetchSummary_preview_spec "https://example.com/"
      ⟨200, some "text/plain", some (String.mk (List.replicate 301 'a'))⟩ 7).2.1
    "text/plain" (String.mk (List.replicate 301 'a')) rfl (Or.inl (by decide)) rfl).1
    (by decide)

/-- C7: on a validation failure or an SSRF-blocked host, `handleFetch`
short-circuits with the 400 client-error result (`bad_request` or
`blocked_target` respectively), leaves the cache state unchanged, and
performs no cache lookup, no cache store and no origin fetch. -/
theorem handleFetch_shortcircuit (parse : String → Option JSURL) (query : Option String)
    (cache : CacheState) (outcome : FetchOutcome) :
    (getValidatedHttpsUrl parse query = none →
      handleFetch parse query cache outcome =
        ⟨jsonError "bad_request"
          "Missing/invalid \"url\". Example: /fetch?url=https://example.com" 400,
         cache, ⟨0, 0, 0⟩⟩) ∧
    (∀ u, getValidatedHttpsUrl parse query = some u → isBlockedHost u.hostname = true →
      handleFetch parse query cache outcome =
        ⟨jsonError "blocked_target"
          "That target host is blocked for safety (localhost/private network)." 400,
         cache, ⟨0, 0, 0⟩⟩) := by
  constructor
  · intro h
    simp [handleFetch, h]
  · intro u h hbl
    simp [handleFetch, h, hbl]

/-- Witness for C7: an absent `url` parameter short-circuits before any
cache or network effect. -/
theorem handleFetch_shortcircuit_witness :
    handleFetch (fun _ => none) none [] (.failure 0 "net down") =
      ⟨jsonError "bad_request"
        "Missing/invalid \"url\". Example: /fetch?url=https://example.com" 400,
       [], ⟨0, 0, 0⟩⟩ :=
  (handleFetch_shortcircuit (fun _ => none) none [] (.failure 0 "net down")).1 rfl

/-- C5: with a validated, allowed, cache-missing target, the pipeline
produces the 502 upstream-error result exactly when the transport fetch
throws; that result carries the elapsed time and the failure message with
`status`, `contentType` and `preview` all null, and the cache is left
untouched (no store).  An origin response with any HTTP status — 4xx/5xx
included — goes down the normal success path, its status reported verbatim
in the summary. -/
theorem upstream_error_spec (parse : String → Option JSURL) (query : Option String)
    (cache : CacheState) (u : JSURL)
    (hv : getValidatedHttpsUrl parse query = some u)
    (hb : isBlockedHost u.hostname = false)
    (hm : cacheMatch cache u.href = none) :
    (∀ outcome, (handleFetch parse query cache outcome).resp.status = 502 ↔
      ∃ e m, outcome = .failure e m) ∧
    (∀ e m, handleFetch parse query cache (.failure e m) =
      ⟨jsonResponse (.upstreamError ⟨u.href, none, e, none, none,
          "upstream_fetch_failed", m⟩) 502
        [("X-Edge-Fetch-Ms", jsIntToString e)],
       cache, ⟨1, 0, 1⟩⟩) ∧
    (∀ resp e, (handleFetch parse query cache (.success resp e)).resp.body =
        .summary (buildFetchSummary u.href resp e) ∧
      (buildFetchSummary u.href resp e).status = resp.status ∧
      (handleFetch parse query cache (.success resp e)).resp.status = 200) := by
  have hfail : ∀ e m, handleFetch parse query cache (.failure e m) =
      ⟨jsonResponse (.upstreamError ⟨u.href, none, e, none, none,
          "upstream_fetch_failed", m⟩) 502
        [("X-Edge-Fetch-Ms", jsIntToString e)],
       cache, ⟨1, 0, 1⟩⟩ := by
    intro e m
    simp [handleFetch, hv, hb, hm, fetchWithTiming]
  have hsucc : ∀ resp e, handleFetch parse query cache (.success resp e) =
      ⟨jsonResponse (.summary (buildFetchSummary u.href resp e)) 200
        [("X-Edge-Fetch-Ms", jsIntToString e), ("X-Cache", "MISS"),
         ("Cache-Control", "public, max-age=60")],
       cachePut cache u.href
         (jsonResponse (.summary (buildFetchSummary u.href resp e)) 200
           [("X-Edge-Fetch-Ms", jsIntToString e), ("X-Cache", "MISS"),
            ("Cache-Control", "public, max-age=60")]),
       ⟨1, 1, 1⟩⟩ := by
    intro resp e
    simp [handleFetch, hv, hb, hm, fetchWithTiming]
  refine ⟨?_, hfail, ?_⟩
  · intro outcome
    cases outcome with
    | success resp e =>
      rw [hsucc resp e]
      simp [jsonResponse]
    | failure e m =>
      rw [hfail e m]
      simp [jsonResponse]
  · intro resp e
    rw [hsucc resp e]
    exact ⟨rfl, rfl, rfl⟩

/-- Witness for C5: a transport failure after 5 ms for the example target
yields exactly the 502 error result with an unchanged cache. -/
theorem upstream_error_spec_witness :
    handleFetch (fun _ => some ⟨"https:", "example.com", "https://example.com/"⟩)
        (some "https://example.com") [] (.failure 5 "connection refused") =
      ⟨jsonResponse (.upstreamError ⟨"https://example.com/", none, 5, none, none,
          "upstream_fetch_failed", "connection refused"⟩) 502
        [("X-Edge-Fetch-Ms", jsIntToString 5)],
       [], ⟨1, 0, 1⟩⟩ :=
  (upstream_error_spec (fun _ => some ⟨"https:", "example.com", "https://example.com/"⟩)
    (some "https://example.com") [] ⟨"https:", "example.com", "https://example.com/"⟩
    (by decide) (by decide) rfl).2.1 5 "connection refused"

/-- C3: running the same validated, allowed target twice in sequence from
a cache with no entry for it (first fetch succeeding) gives a miss-marked
then a hit-marked response; the miss path stores in the cache exactly the
response it returns (with the cache-control and miss-marker headers
already attached), and the hit response is that stored response with only
the `X-Cache` marker rewritten: identical body, identical other headers,
and no further cache change. -/
theorem cache_miss_then_hit (parse : String → Option JSURL) (query : Option String)
    (cache : CacheState) (u : JSURL) (resp1 : UpstreamResponse) (e1 : ℤ)
    (outcome2 : FetchOutcome)
    (hv : getValidatedHttpsUrl parse query = some u)
    (hb : isBlockedHost u.hostname = false)
    (hm : cacheMatch cache u.href = none) :
    headerGet (handleFetch parse query cache (.success resp1 e1)).resp.headers "X-Cache" =
      some "MISS" ∧
    cacheMatch (handleFetch parse query cache (.success resp1 e1)).cache u.href =
      some (handleFetch parse query cache (.success resp1 e1)).resp ∧
    (handleFetch parse query
        (handleFetch parse query cache (.success resp1 e1)).cache outcome2).resp =
      withHeader (handleFetch parse query cache (.success resp1 e1)).resp
        "X-Cache" "HIT" ∧
    (handleFetch parse query
        (handleFetch parse query cache (.success resp1 e1)).cache outcome2).resp.body =
      (handleFetch parse query cache (.success resp1 e1)).resp.body ∧
    headerGet (handleFetch parse query
        (handleFetch parse query cache (.success resp1 e1)).cache outcome2).resp.headers
      "X-Cache" = some "HIT" ∧
    (∀ name, lowerName name ≠ "x-cache" →
      headerGet (handleFetch parse query
          (handleFetch parse query cache (.success resp1 e1)).cache outcome2).resp.headers
        name =
      headerGet (handleFetch parse query cache (.success resp1 e1)).resp.headers name) ∧
    (handleFetch parse query
        (handleFetch parse query cache (.success resp1 e1)).cache outcome2).cache =
      (handleFetch parse query cache (.success resp1 e1)).cache := by
  have h1 : handleFetch parse query cache (.success resp1 e1) =
      ⟨jsonResponse (.summary (buildFetchSummary u.href resp1 e1)) 200
        [("X-Edge-Fetch-Ms", jsIntToString e1), ("X-Cache", "MISS"),
         ("Cache-Control", "public, max-age=60")],
       cachePut cache u.href
         (jsonResponse (.summary (buildFetchSummary u.href resp1 e1)) 200
           [("X-Edge-Fetch-Ms", jsIntToString e1), ("X-Cache", "MISS"),
            ("Cache-Control", "public, max-age=60")]),
       ⟨1, 1, 1⟩⟩ := by
    simp [handleFetch, hv, hb, hm, fetchWithTiming]
  set R := jsonResponse (.summary (buildFetchSummary u.href resp1 e1)) 200
    [("X-Edge-Fetch-Ms", jsIntToString e1), ("X-Cache", "MISS"),
     ("Cache-Control", "public, max-age=60")] with hR
  have hc2 : cacheMatch (cachePut cache u.href R) u.href = some R :=
    alGet_alSet_self cache u.href R
  have h2 : handleFetch parse query (cachePut cache u.href R) outcome2 =
      ⟨withHeader R "X-Cache" "HIT", cachePut cache u.href R, ⟨1, 0, 0⟩⟩ := by
    simp [handleFetch, hv, hb, hc2]
  rw [h1]
  refine ⟨?_, ?_, ?_, ?_, ?_, ?_, ?_⟩
  · rfl
  · exact hc2
  · exact h2 ▸ rfl
  · rw [h2]
    rfl
  · rw [h2]
    exact alGet_alSet_self R.headers (lowerName "X-Cache") "HIT"
  · intro name hname
    rw [h2]
    show alGet (alSet R.headers (lowerName "X-Cache") "HIT") (lowerName name) =
      alGet R.headers (lowerName name)
    exact alGet_alSet_ne R.headers (lowerName "X-Cache") (lowerName name) "HIT"
      (fun hh => hname (hh.trans (by decide)))
  · rw [h2]

/-- Witness for C3: the second identical request for the example target is
answered from the cache with the hit marker. -/
theorem cache_miss_then_hit_witness :
    headerGet (handleFetch
        (fun _ => some ⟨"https:", "example.com", "https://example.com/"⟩)
        (some "https://example.com")
        (handleFetch (fun _ => some ⟨"https:", "example.com", "https://example.com/"⟩)
          (some "https://example.com") []
          (.success ⟨200, some "text/html", some "hello"⟩ 5)).cache
        (.success ⟨200, some "text/html", some "hello"⟩ 5)).resp.headers
      "X-Cache" = some "HIT" :=
  (cache_miss_then_hit (fun _ => some ⟨"https:", "example.com", "https://example.com/"⟩)
    (some "https://example.com") [] ⟨"https:", "example.com", "https://example.com/"⟩
    ⟨200, some "text/html", some "hello"⟩ 5
    (.success ⟨200, some "text/html", some "hello"⟩ 5)
    (by decide) (by decide) rfl).2.2.2.2.1

/-! ### Second revision variant

The combined listing repeats the worker after a document marker
(src/index.ts lines 381-658).  Its four core functions are re-translated
here from that second listing so the two revisions can be compared. -/

namespace Rev2

/-- Embedding of `getValidatedHttpsUrl` from the second revision
(src/index.ts lines 492-505). -/
def getValidatedHttpsUrl (parse : String → Option JSURL) (query : Option String) :
    Option JSURL :=
  match query with
  | none => none
  | some target =>
    if target = "" then none
    else
      match parse target with
      | none => none
      | some targetUrl =>
        if targetUrl.protocol ≠ "https:" then none else some targetUrl

/-- Embedding of `isBlockedHost` from the second revision (src/index.ts
lines 507-524). -/
def isBlockedHost (hostname : String) : Bool :=
  let host := jsToLower hostname.toList
  if host = "localhost".toList || host = "127.0.0.1".toList || host = "::1".toList then true
  else if jsStartsWith host "10.".toList then true
  else if jsStartsWith host "192.168.".toList then true
  else if jsStartsWith host "172.".toList then
    let second := match secondSegment host with
      | some s => jsNumber s
      | none => none
    match second with
    | some n => n.ge16 && n.le31
    | none => false
  else false

/-- Embedding of the keyed body of `checkRateLimit` from the second
revision (src/index.ts lines 594-617). -/
def checkRateLimitKey (now : ℤ) (key : String) (maxRequests windowSeconds : ℤ)
    (st : RateStore) : RateResult × RateStore :=
  let windowMs := windowSeconds * 1000
  match storeGet st key with
  | none => (⟨true, 0⟩, storeSet st key ⟨now, 1⟩)
  | some entry =>
    if now - entry.windowStartMs ≥ windowMs then
      (⟨true, 0⟩, storeSet st key ⟨now, 1⟩)
    else if entry.count ≥ maxRequests then
      (⟨false, jsCeilMs (windowMs - (now - entry.windowStartMs))⟩, st)
    else
      (⟨true, 0⟩, storeSet st key ⟨entry.windowStartMs, entry.count + 1⟩)

/-- Embedding of `clientKey` from the second revision (src/index.ts lines
619-633). -/
def clientKey (req : ClientInfo) : String :=
  let ip := jsOrDefault (jsOrOpt req.cfConnectingIp req.xForwardedFor) "no-ip"
  let ua := req.userAgent.getD "no-ua"
  let country := req.country.getD "no-country"
  let colo := req.colo.getD "no-colo"
  ip ++ "|" ++ country ++ "|" ++ colo ++ "|" ++ ua

/-- `checkRateLimit` from the second revision, deriving the key from the
request (src/index.ts line 601). -/
def checkRateLimit (now : ℤ) (req : ClientInfo) (maxRequests windowSeconds : ℤ)
    (st : RateStore) : RateResult × RateStore :=
  checkRateLimitKey now (clientKey req) maxRequests windowSeconds st

end Rev2

/-- C10: the two revision variants implement extensionally equal core
functions — `getValidatedHttpsUrl`, `isBlockedHost`, `checkRateLimit`
(both its keyed body and the request-level wrapper) and `clientKey` agree
on every input. -/
theorem revisions_equivalent :
    (∀ parse query, Rev2.getValidatedHttpsUrl parse query =
      getValidatedHttpsUrl parse query) ∧
    (∀ h, Rev2.isBlockedHost h = isBlockedHost h) ∧
    (∀ now key mx ws st, Rev2.checkRateLimitKey now key mx ws st =
      checkRateLimitKey now key mx ws st) ∧
    (∀ now req mx ws st, Rev2.checkRateLimit now req mx ws st =
      checkRateLimit now req mx ws st) ∧
    (∀ req, Rev2.clientKey req = clientKey req) :=
  ⟨fun _ _ => rfl, fun _ => rfl, fun _ _ _ _ _ => rfl, fun _ _ _ _ _ => rfl, fun _ => rfl⟩

end EdgeProxy
